import Mathlib

/-!
Shallow embedding of the lowering stage of the compiler middle end:
`crates/lowering/src/new_lower.rs` together with its data model
`crates/lowering/src/new_objects.rs`.

Modelling conventions:
- `id_arena::Arena` becomes a `List`; an `Id` is the index at which the entry
  was appended (`alloc` appends and returns the previous length).
- `HashMap` becomes an association list in insertion order; `insert` replaces
  the value if the key is present (as `HashMap::insert` does), `lookup` is
  `List.lookup`.
- `HashSet` becomes a duplicate-free list in insertion order; converting the
  set to a vector (`into_iter().collect()`) applies an *iteration order*
  function `ord`, an explicit parameter of the lowering.  Rust leaves the
  iteration order of a `HashSet` unspecified (it depends on the per-process
  `RandomState` hasher seed), so the embedding quantifies over every `ord`
  that enumerates exactly the elements of the set (`IterOrder` below).
- Code that can panic (`unwrap`, `assert_eq!`, `extract_matches!`,
  `itertools::zip_eq` on unequal lengths) returns `PanicOr`; `.panicked` is a
  panic, `.ok` a normal return.
- The `semantic` crate (typed expression tree and the semantic database
  queries) and the `diagnostics` plumbing are external collaborators of this
  core; they are modelled from the spec at their interface boundary (§6 of
  the spec), see the `Modelled from the spec:` doc comments.
-/

/-! ## Ids (`id_arena::Id` and the semantic-crate id types, all index-like) -/

abbrev VariableId := Nat
abbrev BlockId := Nat
abbrev TypeId := Nat
abbrev SemVarId := Nat
abbrev ConcreteEnumId := Nat
abbrev EnumId := Nat
abbrev VariantId := Nat
abbrev SemVariant := Nat
abbrev ConcreteVariant := Nat

/-- Modelled from the spec: a recorded lowering diagnostic (kind + location);
its content is opaque to this core, which only collects diagnostics.  The
source file never appends any diagnostic, so the payload is irrelevant. -/
abbrev LoweringDiagnostic := Nat

/-! ## Data model, from `new_objects.rs` -/

/-- `Variable` of `new_objects.rs`: one lowered (SSA-like) binding. -/
structure Variable where
  droppable : Bool
  duplicatable : Bool
  ty : TypeId
deriving DecidableEq, Repr

/-- `StatementLiteral` of `new_objects.rs`: binds a literal value to a
variable.  `BigInt` is modelled as `Int`. -/
structure StatementLiteral where
  value : Int
  output : VariableId
deriving DecidableEq, Repr

/-- `StatementCall` of `new_objects.rs` (never constructed in `new_lower.rs`). -/
structure StatementCall where
  function : Nat
  inputs : List VariableId
  outputs : List VariableId
deriving DecidableEq, Repr

/-- `StatementCallBlock` of `new_objects.rs` (never constructed in `new_lower.rs`). -/
structure StatementCallBlock where
  block : BlockId
  outputs : List VariableId
deriving DecidableEq, Repr

/-- `StatementMatchExtern` of `new_objects.rs` (never constructed in `new_lower.rs`). -/
structure StatementMatchExt where
  function : Nat
  inputs : List VariableId
  arms : List BlockId
  outputs : List VariableId
deriving DecidableEq, Repr

/-- `StatementEnumConstruct` of `new_objects.rs` (never constructed in `new_lower.rs`). -/
structure StatementEnumConstruct where
  variant : ConcreteVariant
  input : VariableId
  output : VariableId
deriving DecidableEq, Repr

/-- `StatementStructConstruct` of `new_objects.rs` (never constructed in `new_lower.rs`). -/
structure StatementStructConstruct where
  inputs : List VariableId
  output : VariableId
deriving DecidableEq, Repr

/-- `StatementStructDestructure` of `new_objects.rs` (never constructed in `new_lower.rs`). -/
structure StatementStructDestructure where
  input : VariableId
  outputs : List VariableId
deriving DecidableEq, Repr

/-- `MatchArm` of `new_objects.rs`: a concrete variant, the block of the
lowered arm body, and the variable mapping from the enclosing scope's
variable id to the id the arm's block expects (a `HashMap`, modelled as an
association list). -/
structure MatchArm where
  variant : ConcreteVariant
  block_id : BlockId
  var_mapping : List (VariableId × VariableId)
deriving DecidableEq, Repr

/-- `StatementMatchEnum` of `new_objects.rs`. -/
structure StatementMatchEnum where
  concrete_enum : ConcreteEnumId
  inputs : List VariableId
  arms : List MatchArm
  outputs : List VariableId
deriving DecidableEq, Repr

/-- `LoweredStatement` of `new_objects.rs`: the closed statement variant set. -/
inductive LoweredStatement where
  | Literal (s : StatementLiteral)
  | Call (s : StatementCall)
  | CallBlock (s : StatementCallBlock)
  | MatchExt (s : StatementMatchExt)
  | StructConstruct (s : StatementStructConstruct)
  | StructDestructure (s : StatementStructDestructure)
  | EnumConstruct (s : StatementEnumConstruct)
  | MatchEnum (s : StatementMatchEnum)
deriving DecidableEq, Repr

/-- `Block` of `new_objects.rs`: a linear sequence of statements. -/
structure Block where
  statements : List LoweredStatement
deriving DecidableEq, Repr

/-- `BlockEnd` of `new_objects.rs` (declared there; unused by `new_lower.rs`,
where `Block.end` is commented out). -/
inductive BlockEnd where
  | Callsite (vars : List VariableId)
  | Ret (vars : List VariableId)
  | Unreachable
deriving DecidableEq, Repr

/-! ## The semantic crate's typed expression tree

Modelled from the spec: the semantic analyzer's typed function body (§6
"a function's typed body (statement and expression trees, each expression
carrying a resolved type)").  The semantic crate is not part of this core.
In the source the tree is arena-indexed (`function_def.exprs[expr_id]`);
the embedding inlines it into a tree, which is the same recursion for every
well-formed (acyclic) body.  Expression kinds whose lowering procedure in
`new_lower.rs` has an empty `TODO` body never have their payload read, so
they are carried without payload here. -/

mutual

inductive SemExpr where
  | Var (var : SemVarId) (ty : TypeId)
  | Literal (value : Int) (ty : TypeId)
  | Match (matched_ty : TypeId) (arms : SemMatchArms)
  | Block (body : SemStmts)
  | Tuple
  | Assignment
  | FunctionCall
  | If
  | MemberAccess
  | StructCtor
  | EnumVariantCtor
  | PropagateError
  | Missing
deriving DecidableEq, Repr

/-- The list of syntactic match arms (`pattern` is opaque here: the only
consumer, `get_pattern_vars`, ignores it). -/
inductive SemMatchArms where
  | nil
  | cons (pattern : Nat) (expression : SemExpr) (rest : SemMatchArms)
deriving DecidableEq, Repr

/-- The statement list of a semantic block (`semantic::ExprBlock.statements`).
`consReturn` carries no payload: `new_lower.rs` ignores `Statement::Return`
(a `TODO`). -/
inductive SemStmts where
  | nil
  | consExpr (e : SemExpr) (rest : SemStmts)
  | consLet (pattern : Nat) (e : SemExpr) (rest : SemStmts)
  | consReturn (rest : SemStmts)
deriving DecidableEq, Repr

end

/-- `expr_match.arms.len()`. -/
def SemMatchArms.length : SemMatchArms → Nat
  | .nil => 0
  | .cons _ _ rest => rest.length + 1

/-- The arms as a list of (pattern, body expression) pairs, for stating
theorems that index arms positionally. -/
def SemMatchArms.toList : SemMatchArms → List (Nat × SemExpr)
  | .nil => []
  | .cons p e rest => (p, e) :: rest.toList

/-! ## The semantic database interface

Modelled from the spec: the read-only semantic/type database queried by
lowering (§6).  All queries are for the single free function being lowered,
so the `FreeFunctionId` argument of the source queries is dropped. -/

/-- Modelled from the spec: `semantic::Mutability` of a declared parameter. -/
inductive Mutability where
  | Immutable
  | Mutable
  | Reference
deriving DecidableEq, Repr

/-- Modelled from the spec: a declared function parameter. -/
structure Param where
  id : Nat
  ty : TypeId
  mutability : Mutability
deriving DecidableEq, Repr

/-- Modelled from the spec: a function signature (only the parameter list is
read by `lower_free_function`). -/
structure Signature where
  params : List Param
deriving DecidableEq, Repr

/-- Modelled from the spec: the typed function definition; the source holds
an expression arena plus the body's `ExprId`, inlined here to the body
tree. -/
structure FunctionDef where
  body : SemExpr
deriving DecidableEq, Repr

/-- Modelled from the spec: the `{duplicatable, droppable}` properties of a
type (§6).  The `Default` used by `unwrap_or_default()` in
`introduce_new_var` is the conservative "neither" (§4.1). -/
structure TypeInfo where
  droppable : Bool
  duplicatable : Bool
deriving DecidableEq, Repr

/-- `semantic::items::imp::ImplLookupContext` as constructed in
`lower_free_function` (module + extra modules + generic params). -/
structure ImplLookupContext where
  module_id : Nat
  extra_modules : List Nat
  generic_params : List Nat
deriving DecidableEq, Repr

/-- Modelled from the spec: `semantic::ConcreteTypeId`; the lowering only
distinguishes the `Enum` case (via `try_extract_matches!`). -/
inductive ConcreteTypeId where
  | Enum (id : ConcreteEnumId)
  | NonEnum
deriving DecidableEq, Repr

/-- Modelled from the spec: `semantic::TypeLongId`; the lowering only
distinguishes the `Concrete` case (via `try_extract_matches!`). -/
inductive TypeLongId where
  | Concrete (c : ConcreteTypeId)
  | NonConcrete
deriving DecidableEq, Repr

/-- Modelled from the spec: the semantic database (`dyn LoweringGroup`),
restricted to the queries `new_lower.rs` performs, for the one free function
being lowered. -/
structure Db where
  /-- `free_function_id.module(db.upcast())`. -/
  module_id : Nat
  /-- `db.free_function_definition(free_function_id)`. -/
  free_function_definition : Option FunctionDef
  /-- `db.free_function_declaration_generic_params(free_function_id)`. -/
  free_function_declaration_generic_params : Option (List Nat)
  /-- `db.free_function_declaration_signature(free_function_id)`. -/
  free_function_declaration_signature : Option Signature
  /-- `db.free_function_all_implicits_vec(free_function_id)`. -/
  free_function_all_implicits_vec : Option (List TypeId)
  /-- `db.lookup_intern_type(ty)`. -/
  lookup_intern_type : TypeId → TypeLongId
  /-- `concrete_enum_id.enum_id(db.upcast())`. -/
  enum_id_of : ConcreteEnumId → EnumId
  /-- `db.enum_variants(enum_id)`; the source's ordered map of variants,
  iterated by `.values()` in declaration order, carried as that list. -/
  enum_variants : EnumId → Option (List VariantId)
  /-- `db.variant_semantic(enum_id, variant_id)`. -/
  variant_semantic : EnumId → VariantId → Option SemVariant
  /-- `db.concrete_enum_variant(concrete_enum_id, variant)`. -/
  concrete_enum_variant : ConcreteEnumId → SemVariant → Option ConcreteVariant
  /-- `db.type_info(lookup_context, ty)`. -/
  type_info : ImplLookupContext → TypeId → Option TypeInfo

/-! ## Lowering state -/

/-- `LoweredFreeFunction` of `new_lower.rs`. -/
structure LoweredFreeFunction where
  diagnostics : List LoweringDiagnostic
  root : BlockId
  /-- The source field is named `variables` (a reserved command token in Lean). -/
  variables_arena : List Variable
  blocks : List Block
deriving DecidableEq, Repr

/-- The mutable part of `LoweringContext` of `new_lower.rs` (`db` and
`function_def` are read-only and passed separately). -/
structure LoweringContext where
  diagnostics : List LoweringDiagnostic
  /-- The source field is named `variables` (a reserved command token in Lean). -/
  variables_arena : List Variable
  blocks : List Block
  lookup_context : ImplLookupContext
deriving DecidableEq, Repr

/-- `LoweringBlockScope` of `new_lower.rs`: the transient per-block scope.
`Default` gives the empty scope. -/
structure LoweringBlockScope where
  vars : List (SemVarId × VariableId) := []
  required_vars : List (SemVarId × VariableId) := []
  statements : List LoweredStatement := []
deriving DecidableEq, Repr

/-- `LoweringFlowError` of `new_context`; `Failed` is the only value used by
`extract_concrete_enum`. -/
inductive LoweringFlowError where
  | Failed
deriving DecidableEq, Repr

/-- Outcome of running code that may panic (`unwrap` / `assert_eq!` /
`extract_matches!` / `zip_eq` in the source). -/
inductive PanicOr (α : Type) where
  | panicked
  | ok (val : α)
deriving DecidableEq, Repr

/-! ## Container helpers (the `HashMap` / `HashSet` model) -/

/-- `HashMap::contains_key`. -/
def hm_contains_key (m : List (SemVarId × VariableId)) (k : SemVarId) : Bool :=
  (List.lookup k m).isSome

/-- `HashMap::insert` (replaces the value when the key is present). -/
def hm_insert (m : List (Nat × Nat)) (k v : Nat) : List (Nat × Nat) :=
  if (List.lookup k m).isSome then
    m.map (fun p => if p.1 = k then (k, v) else p)
  else
    m ++ [(k, v)]

/-- `HashSet::insert`: the set is a duplicate-free list in insertion order. -/
def hs_insert (s : List Nat) (a : Nat) : List Nat :=
  if a ∈ s then s else s ++ [a]

/-- `HashSet::extend`. -/
def hs_extend (s : List Nat) (l : List Nat) : List Nat :=
  l.foldl hs_insert s

/-- A legitimate iteration order for the `HashSet` model: converting a set
(a duplicate-free list) to a vector enumerates exactly its elements, each
once.  Every actual `HashSet::into_iter` order satisfies this; which order
is obtained depends on the process's `RandomState` hasher seed, which the
program does not control. -/
def IterOrder (ord : List Nat → List Nat) : Prop :=
  ∀ l : List Nat, l.Nodup → (ord l).Nodup ∧ ∀ x, x ∈ ord l ↔ x ∈ l

/-! ## The lowering functions, from `new_lower.rs` -/

/-- `get_pattern_vars` of `new_lower.rs`: a `TODO` stub returning no
variables. -/
def get_pattern_vars (_pattern : Nat) : List SemVarId :=
  []

/-- `introduce_new_var` of `new_lower.rs`: queries the type info (defaulting
to the conservative value on failure) and allocates a new `Variable`;
`Arena::alloc` appends and returns the fresh index. -/
def introduce_new_var (db : Db) (ctx : LoweringContext) (ty : TypeId) :
    LoweringContext × VariableId :=
  let ty_info := (db.type_info ctx.lookup_context ty).getD { droppable := false, duplicatable := false }
  let id := ctx.variables_arena.length
  ({ ctx with
      variables_arena := ctx.variables_arena ++
        [{ duplicatable := ty_info.duplicatable, droppable := ty_info.droppable, ty := ty }] },
   id)

/-- `lower_expr_literal` of `new_lower.rs`. -/
def lower_expr_literal (db : Db) (ctx : LoweringContext) (scope : LoweringBlockScope)
    (value : Int) (ty : TypeId) : LoweringContext × LoweringBlockScope :=
  let r := introduce_new_var db ctx ty
  (r.1, { scope with
            statements := scope.statements ++
              [LoweredStatement.Literal { value := value, output := r.2 }] })

/-- The `.collect::<Result<Vec<_>, _>>()` over the variant queries inside
`extract_concrete_enum`. -/
def collect_concrete_variants (db : Db) (enum_id : EnumId) (ceid : ConcreteEnumId) :
    List VariantId → Except LoweringFlowError (List ConcreteVariant)
  | [] => .ok []
  | vid :: rest =>
    match db.variant_semantic enum_id vid with
    | none => .error .Failed
    | some variant =>
      match db.concrete_enum_variant ceid variant with
      | none => .error .Failed
      | some cv =>
        match collect_concrete_variants db enum_id ceid rest with
        | .error e => .error e
        | .ok cvs => .ok (cv :: cvs)

/-- `extract_concrete_enum` of `new_lower.rs`.  The source takes the match
expression and reads only the matched expression's type and `arms.len()`;
those are the parameters here.  The trailing
`assert_eq!(expr.arms.len(), concrete_variants.len())` panics on
mismatch. -/
def extract_concrete_enum (db : Db) (matched_ty : TypeId) (n_arms : Nat) :
    PanicOr (Except LoweringFlowError (ConcreteEnumId × List ConcreteVariant)) :=
  match db.lookup_intern_type matched_ty with
  | .NonConcrete => .ok (.error .Failed)
  | .Concrete .NonEnum => .ok (.error .Failed)
  | .Concrete (.Enum concrete_enum_id) =>
    match db.enum_variants (db.enum_id_of concrete_enum_id) with
    | none => .ok (.error .Failed)
    | some variants =>
      match collect_concrete_variants db (db.enum_id_of concrete_enum_id) concrete_enum_id variants with
      | .error e => .ok (.error e)
      | .ok concrete_variants =>
        if n_arms = concrete_variants.length then
          .ok (.ok (concrete_enum_id, concrete_variants))
        else
          .panicked

/-- The arm-mapping loop of `lower_expr_match`: for each
`(required_var, initial_lowered_id)` of the arm scope, look the required
variable up in the *enclosing* scope's `vars`; when present, map the
enclosing id to the arm-local id; when absent, do nothing (the source leaves
a `TODO(yg): diagnostic, missing var...` and records nothing). -/
def build_arm_mapping (enclosing_vars : List (SemVarId × VariableId)) :
    List (SemVarId × VariableId) → List (VariableId × VariableId) →
    List (VariableId × VariableId)
  | [], arm_mapping => arm_mapping
  | (required_var, initial_lowered_id) :: rest, arm_mapping =>
    match List.lookup required_var enclosing_vars with
    | some scope_lowered_var_id =>
      build_arm_mapping enclosing_vars rest (hm_insert arm_mapping scope_lowered_var_id initial_lowered_id)
    | none =>
      build_arm_mapping enclosing_vars rest arm_mapping

mutual

/-- `lower_expr` of `new_lower.rs`: the total dispatch over expression
kinds.  Kinds whose procedure is an empty `TODO` body change nothing.
`ord` is the `HashSet` iteration order (see `IterOrder`). -/
def lower_expr (db : Db) (ord : List Nat → List Nat) (ctx : LoweringContext)
    (scope : LoweringBlockScope) : SemExpr → PanicOr (LoweringContext × LoweringBlockScope)
  | .Tuple => .ok (ctx, scope)
  | .Assignment => .ok (ctx, scope)
  | .Block body => lower_block db ord ctx scope body
  | .FunctionCall => .ok (ctx, scope)
  | .Match matched_ty arms => lower_expr_match db ord ctx scope matched_ty arms
  | .If => .ok (ctx, scope)
  | .Var v ty =>
    if hm_contains_key scope.vars v then
      .ok (ctx, scope)
    else
      let r := introduce_new_var db ctx ty
      .ok (r.1, { scope with
                    required_vars := hm_insert scope.required_vars v r.2,
                    vars := hm_insert scope.vars v r.2 })
  | .Literal value ty => .ok (lower_expr_literal db ctx scope value ty)
  | .MemberAccess => .ok (ctx, scope)
  | .StructCtor => .ok (ctx, scope)
  | .EnumVariantCtor => .ok (ctx, scope)
  | .PropagateError => .ok (ctx, scope)
  | .Missing => .ok (ctx, scope)
termination_by e => (sizeOf e, 0)

/-- `lower_block` of `new_lower.rs`: lowers the statements in source order.
A let-statement only lowers its right-hand side (no name-binding step exists
in the source; `get_pattern_vars` is an unused `TODO` stub); returns are
ignored (`TODO`). -/
def lower_block (db : Db) (ord : List Nat → List Nat) (ctx : LoweringContext)
    (scope : LoweringBlockScope) : SemStmts → PanicOr (LoweringContext × LoweringBlockScope)
  | .nil => .ok (ctx, scope)
  | .consExpr e rest =>
    match lower_expr db ord ctx scope e with
    | .panicked => .panicked
    | .ok (ctx1, scope1) => lower_block db ord ctx1 scope1 rest
  | .consLet _pattern e rest =>
    match lower_expr db ord ctx scope e with
    | .panicked => .panicked
    | .ok (ctx1, scope1) => lower_block db ord ctx1 scope1 rest
  | .consReturn rest => lower_block db ord ctx scope rest
termination_by stmts => (sizeOf stmts, 0)

/-- `lower_expr_match` of `new_lower.rs`: extracts the concrete enum (the
`.unwrap()` panics on `Err`), lowers the arms against the enclosing scope's
`vars`, and pushes one `MatchEnum` statement whose `inputs`/`outputs`
vectors are the accumulated `HashSet`s in iteration order. -/
def lower_expr_match (db : Db) (ord : List Nat → List Nat) (ctx : LoweringContext)
    (scope : LoweringBlockScope) (matched_ty : TypeId) (arms : SemMatchArms) :
    PanicOr (LoweringContext × LoweringBlockScope)
  :=
  match extract_concrete_enum db matched_ty arms.length with
  | .panicked => .panicked
  | .ok (.error _) => .panicked
  | .ok (.ok (concrete_enum_id, concrete_variants)) =>
    match lower_match_arms db ord scope.vars ctx [] [] [] concrete_variants arms with
    | .panicked => .panicked
    | .ok (ctx1, match_arms, inputs, outputs) =>
      .ok (ctx1, { scope with
                     statements := scope.statements ++
                       [LoweredStatement.MatchEnum {
                          concrete_enum := concrete_enum_id,
                          inputs := ord inputs,
                          arms := match_arms,
                          outputs := ord outputs }] })
termination_by (sizeOf arms, 2)

/-- The `zip_eq(concrete_variants, &expr_match.arms)` loop of
`lower_expr_match`.  Each arm is lowered into a fresh empty scope; its
required variables are resolved against the (never modified) enclosing
`vars`; the arm's block is allocated; the `inputs`/`outputs` sets are
extended with the mapping's keys/values.  `zip_eq` panics when the lengths
differ. -/
def lower_match_arms (db : Db) (ord : List Nat → List Nat)
    (enclosing_vars : List (SemVarId × VariableId)) (ctx : LoweringContext)
    (inputs outputs : List VariableId) (match_arms : List MatchArm) :
    List ConcreteVariant → SemMatchArms →
    PanicOr (LoweringContext × List MatchArm × List VariableId × List VariableId)
  | [], .nil => .ok (ctx, match_arms, inputs, outputs)
  | variant :: rest_variants, .cons _pat e rest =>
    match lower_expr db ord ctx {} e with
    | .panicked => .panicked
    | .ok (ctx1, arm_scope) =>
      let arm_mapping := build_arm_mapping enclosing_vars arm_scope.required_vars []
      let inputs1 := hs_extend inputs (arm_mapping.map Prod.fst)
      let outputs1 := hs_extend outputs (arm_mapping.map Prod.snd)
      let block_id := ctx1.blocks.length
      let ctx2 := { ctx1 with blocks := ctx1.blocks ++ [{ statements := arm_scope.statements }] }
      lower_match_arms db ord enclosing_vars ctx2 inputs1 outputs1
        (match_arms ++ [{ variant := variant, block_id := block_id, var_mapping := arm_mapping }])
        rest_variants rest
  | [], .cons _ _ _ => .panicked
  | _ :: _, .nil => .panicked
termination_by _ arms => (sizeOf arms, 1)

end

/-- The (unused) `ref_params` computation of `lower_free_function`
(lines 45-50 of `new_lower.rs`): the by-reference parameters.  Dead in the
source as well — computed and never read. -/
def ref_params_of (signature : Signature) : List Nat :=
  (signature.params.filter (fun param => param.mutability == Mutability.Reference)).map
    (fun param => param.id)

/-- `lower_free_function` of `new_lower.rs`.  Each of the four upstream
queries is `?`-propagated (`.ok none` = `return None`); the body is
extracted with `extract_matches!` (panics when the body expression is not a
block); the root block is allocated last from the root scope's
statements. -/
def lower_free_function (db : Db) (ord : List Nat → List Nat) :
    PanicOr (Option LoweredFreeFunction) :=
  match db.free_function_definition with
  | none => .ok none
  | some function_def =>
    match db.free_function_declaration_generic_params with
    | none => .ok none
    | some generic_params =>
      match db.free_function_declaration_signature with
      | none => .ok none
      | some _signature =>
        match db.free_function_all_implicits_vec with
        | none => .ok none
        | some _implicits =>
          let ctx : LoweringContext :=
            { diagnostics := [],
              variables_arena := [],
              blocks := [],
              lookup_context :=
                { module_id := db.module_id,
                  extra_modules := [],
                  generic_params := generic_params } }
          match function_def.body with
          | .Block semantic_block =>
            match lower_block db ord ctx {} semantic_block with
            | .panicked => .panicked
            | .ok (ctx1, scope) =>
              let root_block := ctx1.blocks.length
              .ok (some {
                diagnostics := ctx1.diagnostics,
                root := root_block,
                variables_arena := ctx1.variables_arena,
                blocks := ctx1.blocks ++ [{ statements := scope.statements }] })
          | _ => .panicked

/-! ## Referenced-id extraction (for the arena-closure property, spec §8) -/

/-- Every `VariableId` a statement references (inputs, outputs, and for an
enum match also both sides of every arm's `var_mapping`). -/
def stmt_var_ids : LoweredStatement → List VariableId
  | .Literal s => [s.output]
  | .Call s => s.inputs ++ s.outputs
  | .CallBlock s => s.outputs
  | .MatchExt s => s.inputs ++ s.outputs
  | .StructConstruct s => s.inputs ++ [s.output]
  | .StructDestructure s => s.input :: s.outputs
  | .EnumConstruct s => [s.input, s.output]
  | .MatchEnum s =>
    s.inputs ++ s.outputs ++
      s.arms.flatMap (fun ma => ma.var_mapping.map Prod.fst ++ ma.var_mapping.map Prod.snd)

/-- Every `BlockId` a statement references. -/
def stmt_block_ids : LoweredStatement → List BlockId
  | .CallBlock s => [s.block]
  | .MatchExt s => s.arms
  | .MatchEnum s => s.arms.map (fun ma => ma.block_id)
  | _ => []

/-- A statement's referenced ids all resolve inside arenas of the given
sizes. -/
def StmtValid (nv nb : Nat) (st : LoweredStatement) : Prop :=
  (∀ x ∈ stmt_var_ids st, x < nv) ∧ ∀ b ∈ stmt_block_ids st, b < nb

/-- A block's statements are all valid for the given arena sizes. -/
def BlockValid (nv nb : Nat) (b : Block) : Prop :=
  ∀ st ∈ b.statements, StmtValid nv nb st

/-- Every block already allocated in the context references only ids that
resolve inside the context's arenas. -/
def CtxValid (ctx : LoweringContext) : Prop :=
  ∀ b ∈ ctx.blocks, BlockValid ctx.variables_arena.length ctx.blocks.length b

/-- A scope's bound variables, required variables and emitted statements all
reference ids resolving inside arenas of the given sizes. -/
def ScopeValid (nv nb : Nat) (s : LoweringBlockScope) : Prop :=
  (∀ kv ∈ s.vars, kv.2 < nv) ∧ (∀ kv ∈ s.required_vars, kv.2 < nv) ∧
    ∀ st ∈ s.statements, StmtValid nv nb st

/-- Placeholder `MatchArm` for positional `getD` access in theorem
statements. -/
def dummy_arm : MatchArm :=
  { variant := 0, block_id := 0, var_mapping := [] }

/-! ## Concrete example inputs (used to instantiate the theorems) -/

/-- An empty lookup context. -/
def exLookupCtx : ImplLookupContext :=
  { module_id := 0, extra_modules := [], generic_params := [] }

/-- A lowering context with empty arenas. -/
def exCtx0 : LoweringContext :=
  { diagnostics := [], variables_arena := [], blocks := [], lookup_context := exLookupCtx }

/-- A lowering context whose variable arena already holds two variables
(ids `0` and `1`). -/
def exCtx2 : LoweringContext :=
  { diagnostics := [],
    variables_arena :=
      [{ droppable := true, duplicatable := true, ty := 7 },
       { droppable := true, duplicatable := true, ty := 7 }],
    blocks := [],
    lookup_context := exLookupCtx }

/-- An enclosing scope binding semantic variable `1` to lowered id `0` and
semantic variable `2` to lowered id `1`. -/
def exScope2 : LoweringBlockScope :=
  { vars := [(1, 0), (2, 1)], required_vars := [], statements := [] }

/-- A concrete semantic database: type `100` interns to a concrete enum
(concrete enum id `5`, enum id `3`) with the given declared variants, the
concrete variant of `v` is `v + 20`, every type is droppable and
duplicatable, and the free function's body is the given expression.  All
four upstream queries succeed. -/
def exDb (variants : List VariantId) (body : SemExpr) : Db :=
  { module_id := 0,
    free_function_definition := some { body := body },
    free_function_declaration_generic_params := some [],
    free_function_declaration_signature := some { params := [] },
    free_function_all_implicits_vec := some [],
    lookup_intern_type := fun t => if t = 100 then .Concrete (.Enum 5) else .NonConcrete,
    enum_id_of := fun _ => 3,
    enum_variants := fun e => if e = 3 then some variants else none,
    variant_semantic := fun _ v => some v,
    concrete_enum_variant := fun _ v => some (v + 20),
    type_info := fun _ _ => some { droppable := true, duplicatable := true } }

/-- A two-variant match in variant order: `{A => 1, B => 2}` with literal
bodies. -/
def exArmsTwoLiterals : SemMatchArms :=
  .cons 0 (.Literal 1 7) (.cons 0 (.Literal 2 7) .nil)

/-- One arm per variant of a one-variant enum, whose body references the
never-bound semantic variable `5`. -/
def exArmsMissingVar : SemMatchArms :=
  .cons 0 (.Var 5 7) .nil

/-- A single arm whose body references the outer semantic variables `1` and
`2`. -/
def exArmsTwoOuter : SemMatchArms :=
  .cons 0 (.Block (.consExpr (.Var 1 7) (.consExpr (.Var 2 7) .nil))) .nil

/-- Two arms referencing the distinct outer semantic variables `1` and `2`
respectively. -/
def exArmsDisjointOuter : SemMatchArms :=
  .cons 0 (.Var 1 7) (.cons 0 (.Var 2 7) .nil)

/-- The statement list `let x = 5; x` (the let-bound name is semantic
variable `7`; the source's `Pattern` payload is opaque). -/
def exStmtsLetThenUse : SemStmts :=
  .consLet 0 (.Literal 5 7) (.consExpr (.Var 7 7) .nil)

/-- A function body containing a match with one arm over the two-variant
enum: the arm count disagrees with the variant count. -/
def exBodyMismatch : SemExpr :=
  .Block (.consExpr (.Match 100 (.cons 0 (.Literal 1 7) .nil)) .nil)

/-- A function body that matches the two-variant enum with the two literal
arms `{A => 1, B => 2}`. -/
def exBodyTwoLiterals : SemExpr :=
  .Block (.consExpr (.Match 100 exArmsTwoLiterals) .nil)

/-- A `MatchArm` references only ids resolving inside arenas of the given
sizes: both sides of every `var_mapping` pair and its block id. -/
def ArmValid (nv nb : Nat) (ma : MatchArm) : Prop :=
  (∀ kv ∈ ma.var_mapping, kv.1 < nv ∧ kv.2 < nv) ∧ ma.block_id < nb

/-! ## Helper lemmas: the container model -/

theorem lookup_append_single_self (m : List (Nat × Nat)) (k v : Nat)
    (h : List.lookup k m = none) :
    List.lookup k (m ++ [(k, v)]) = some v := by
  induction m with
  | nil => simp [List.lookup]
  | cons p t ih =>
    rw [List.cons_append]
    rw [List.lookup] at h ⊢
    cases hpk : (k == p.1) with
    | true => simp [hpk] at h
    | false => simp only [hpk] at h ⊢; exact ih h

theorem lookup_map_replace_self (m : List (Nat × Nat)) (k v : Nat)
    (h : (List.lookup k m).isSome) :
    List.lookup k (m.map (fun p => if p.1 = k then (k, v) else p)) = some v := by
  induction m with
  | nil => simp [List.lookup] at h
  | cons p t ih =>
    obtain ⟨a, b⟩ := p
    by_cases hpk : a = k
    · subst hpk
      simp only [List.map_cons]
      simp [List.lookup]
    · have hbk : (k == a) = false := by
        simp [beq_iff_eq]
        exact fun hq => hpk hq.symm
      rw [List.lookup, hbk] at h
      simp only [List.map_cons, if_neg hpk]
      rw [List.lookup, hbk]
      exact ih h

theorem lookup_hm_insert_self (m : List (Nat × Nat)) (k v : Nat) :
    List.lookup k (hm_insert m k v) = some v := by
  unfold hm_insert
  by_cases h : (List.lookup k m).isSome
  · rw [if_pos h]; exact lookup_map_replace_self m k v h
  · rw [if_neg h]
    exact lookup_append_single_self m k v (by
      cases hl : List.lookup k m with
      | none => rfl
      | some b => rw [hl] at h; simp at h)

theorem mem_hs_insert (s : List Nat) (a x : Nat) :
    x ∈ hs_insert s a ↔ x ∈ s ∨ x = a := by
  unfold hs_insert
  by_cases h : a ∈ s
  · rw [if_pos h]
    constructor
    · exact fun hx => Or.inl hx
    · rintro (hx | rfl)
      · exact hx
      · exact h
  · rw [if_neg h]; simp

theorem nodup_hs_insert (s : List Nat) (a : Nat) (h : s.Nodup) :
    (hs_insert s a).Nodup := by
  unfold hs_insert
  by_cases ha : a ∈ s
  · rwa [if_pos ha]
  · rw [if_neg ha]
    simpa [List.nodup_append] using ⟨h, ha⟩

theorem mem_hs_extend (l : List Nat) (s : List Nat) (x : Nat) :
    x ∈ hs_extend s l ↔ x ∈ s ∨ x ∈ l := by
  induction l generalizing s with
  | nil => simp [hs_extend]
  | cons a t ih =>
    unfold hs_extend at ih ⊢
    rw [List.foldl_cons, ih, mem_hs_insert]
    constructor
    · rintro ((hx | rfl) | hx)
      · exact Or.inl hx
      · exact Or.inr (List.mem_cons_self _ _)
      · exact Or.inr (List.mem_cons_of_mem _ hx)
    · rintro (hx | hx)
      · exact Or.inl (Or.inl hx)
      · rcases List.mem_cons.mp hx with rfl | hx
        · exact Or.inl (Or.inr rfl)
        · exact Or.inr hx

theorem nodup_hs_extend (l : List Nat) (s : List Nat) (h : s.Nodup) :
    (hs_extend s l).Nodup := by
  induction l generalizing s with
  | nil => exact h
  | cons a t ih =>
    unfold hs_extend at ih ⊢
    rw [List.foldl_cons]
    exact ih _ (nodup_hs_insert _ _ h)

/-- `IterOrder` holds for insertion order itself. -/
theorem iterOrder_insertion : IterOrder (fun l => l) :=
  fun _ h => ⟨h, fun _ => Iff.rfl⟩

/-- `IterOrder` holds for reversed insertion order. -/
theorem iterOrder_reverse : IterOrder List.reverse :=
  fun l h => ⟨by simpa using h, by simp⟩

/-! ## Claim theorems -/

/-- C5: for a variable-reference expression whose source variable is not yet
present in `scope.vars`, lowering allocates exactly one fresh IR variable via
`introduce_new_var` (the context becomes exactly the one `introduce_new_var`
returns, one variable longer), and registers that same fresh id
simultaneously in both `scope.required_vars` and `scope.vars` under the
referenced source variable. -/
theorem c5_unbound_var_registered_in_required_and_vars
    (db : Db) (ord : List Nat → List Nat) (ctx ctx1 : LoweringContext)
    (scope scope1 : LoweringBlockScope) (v : SemVarId) (ty : TypeId)
    (habsent : List.lookup v scope.vars = none)
    (h : lower_expr db ord ctx scope (.Var v ty) = .ok (ctx1, scope1)) :
    ctx1 = (introduce_new_var db ctx ty).1 ∧
    ctx1.variables_arena.length = ctx.variables_arena.length + 1 ∧
    List.lookup v scope1.required_vars = some (introduce_new_var db ctx ty).2 ∧
    List.lookup v scope1.vars = some (introduce_new_var db ctx ty).2 ∧
    scope1.statements = scope.statements := by
  have hc : hm_contains_key scope.vars v = false := by
    unfold hm_contains_key
    rw [habsent]
    rfl
  rw [lower_expr] at h
  rw [if_neg (by rw [hc]; exact Bool.false_ne_true)] at h
  have h2 := h
  simp only [PanicOr.ok.injEq, Prod.mk.injEq] at h2
  obtain ⟨hctx, hscope⟩ := h2
  subst hctx
  subst hscope
  refine ⟨rfl, ?_, ?_, ?_, rfl⟩
  · simp [introduce_new_var]
  · exact lookup_hm_insert_self _ _ _
  · exact lookup_hm_insert_self _ _ _

/-- Witness for C5: applying the theorem at a concrete input (semantic
variable `3` of type `7`, empty scope, empty arenas). -/
theorem c5_unbound_var_registered_in_required_and_vars_witness :
    ∃ ctx1 scope1,
      lower_expr (exDb [] .Missing) (fun l => l) exCtx0 {} (.Var 3 7) = .ok (ctx1, scope1) ∧
      (ctx1 = (introduce_new_var (exDb [] .Missing) exCtx0 7).1 ∧
       ctx1.variables_arena.length = exCtx0.variables_arena.length + 1 ∧
       List.lookup 3 scope1.required_vars = some (introduce_new_var (exDb [] .Missing) exCtx0 7).2 ∧
       List.lookup 3 scope1.vars = some (introduce_new_var (exDb [] .Missing) exCtx0 7).2 ∧
       scope1.statements = ({} : LoweringBlockScope).statements) := by
  have h : lower_expr (exDb [] .Missing) (fun l => l) exCtx0 {} (.Var 3 7) =
      .ok ({ diagnostics := [], variables_arena := [⟨true, true, 7⟩], blocks := [],
             lookup_context := exLookupCtx },
           { vars := [(3, 0)], required_vars := [(3, 0)], statements := [] }) := by
    simp [lower_expr, hm_contains_key, introduce_new_var, hm_insert, exCtx0, exDb,
          exLookupCtx, List.lookup]
  exact ⟨_, _, h,
    c5_unbound_var_registered_in_required_and_vars _ _ _ _ _ _ 3 7 rfl h⟩

/-- C9: lowering a single literal expression appends exactly one
literal-binding statement to the current scope, whose recorded value is the
literal's exact value and whose output is the freshly allocated variable
(the next arena index), whose type equals the literal's static type; the
scope's variable maps are untouched. -/
theorem c9_literal_emits_one_statement
    (db : Db) (ord : List Nat → List Nat) (ctx ctx1 : LoweringContext)
    (scope scope1 : LoweringBlockScope) (value : Int) (ty : TypeId)
    (h : lower_expr db ord ctx scope (.Literal value ty) = .ok (ctx1, scope1)) :
    scope1.statements = scope.statements ++
      [LoweredStatement.Literal { value := value, output := ctx.variables_arena.length }] ∧
    ctx1.variables_arena.length = ctx.variables_arena.length + 1 ∧
    (ctx1.variables_arena.getD ctx.variables_arena.length
        { droppable := false, duplicatable := false, ty := 0 }).ty = ty ∧
    scope1.vars = scope.vars ∧ scope1.required_vars = scope.required_vars := by
  rw [lower_expr] at h
  simp only [lower_expr_literal, introduce_new_var, PanicOr.ok.injEq, Prod.mk.injEq] at h
  obtain ⟨hctx, hscope⟩ := h
  subst hctx
  subst hscope
  refine ⟨rfl, by simp, ?_, rfl, rfl⟩
  simp [List.getD_eq_getElem?_getD, List.getElem?_concat_length]

/-- Witness for C9: applying the theorem at the literal `42` of type `7`. -/
theorem c9_literal_emits_one_statement_witness :
    ∃ ctx1 scope1,
      lower_expr (exDb [] .Missing) (fun l => l) exCtx0 {} (.Literal 42 7) = .ok (ctx1, scope1) ∧
      (scope1.statements = ({} : LoweringBlockScope).statements ++
        [LoweredStatement.Literal { value := 42, output := exCtx0.variables_arena.length }] ∧
       ctx1.variables_arena.length = exCtx0.variables_arena.length + 1 ∧
       (ctx1.variables_arena.getD exCtx0.variables_arena.length
           { droppable := false, duplicatable := false, ty := 0 }).ty = 7 ∧
       scope1.vars = ({} : LoweringBlockScope).vars ∧
       scope1.required_vars = ({} : LoweringBlockScope).required_vars) := by
  have h : lower_expr (exDb [] .Missing) (fun l => l) exCtx0 {} (.Literal 42 7) =
      .ok ({ diagnostics := [], variables_arena := [⟨true, true, 7⟩], blocks := [],
             lookup_context := exLookupCtx },
           { vars := [], required_vars := [],
             statements := [LoweredStatement.Literal { value := 42, output := 0 }] }) := by
    simp [lower_expr, lower_expr_literal, introduce_new_var, exCtx0, exDb, exLookupCtx]
  exact ⟨_, _, h, c9_literal_emits_one_statement _ _ _ _ _ _ 42 7 h⟩

/-- C10: lowering a variable-reference expression never appends a statement;
when the referenced source variable is already present in `scope.vars` the
lowering is a complete no-op (context, arenas and all three scope components
unchanged). -/
theorem c10_var_reference_frame
    (db : Db) (ord : List Nat → List Nat) (ctx ctx1 : LoweringContext)
    (scope scope1 : LoweringBlockScope) (v : SemVarId) (ty : TypeId)
    (h : lower_expr db ord ctx scope (.Var v ty) = .ok (ctx1, scope1)) :
    scope1.statements = scope.statements ∧
    ((List.lookup v scope.vars).isSome → ctx1 = ctx ∧ scope1 = scope) := by
  rw [lower_expr] at h
  by_cases hc : hm_contains_key scope.vars v
  · rw [if_pos (by rw [hc])] at h
    simp only [PanicOr.ok.injEq, Prod.mk.injEq] at h
    obtain ⟨hctx, hscope⟩ := h
    subst hctx
    subst hscope
    exact ⟨rfl, fun _ => ⟨rfl, rfl⟩⟩
  · rw [if_neg hc] at h
    simp only [PanicOr.ok.injEq, Prod.mk.injEq] at h
    obtain ⟨hctx, hscope⟩ := h
    subst hctx
    subst hscope
    refine ⟨rfl, fun hsome => absurd ?_ hc⟩
    unfold hm_contains_key
    exact hsome

/-- C2: the claim says a match arm that requires a source variable absent
from the enclosing scope makes lowering record a soft missing-variable
diagnostic.  Evaluating the code at the failing input (a one-variant match
whose arm references the never-bound semantic variable `5`): lowering does
continue and emits the `MatchEnum` statement, and the unresolved variable
contributes nothing to the unified `inputs` — but the diagnostics sink stays
empty: the `Vacant` branch of the arm-mapping loop is an unimplemented
`TODO(yg): diagnostic, missing var...` in the source, so no diagnostic is
ever recorded. -/
theorem c2_missing_outer_var_records_no_diagnostic :
    lower_expr_match (exDb [0] .Missing) (fun l => l) exCtx0 {} 100 exArmsMissingVar =
      .ok ({ diagnostics := [], variables_arena := [⟨true, true, 7⟩],
             blocks := [{ statements := [] }], lookup_context := exLookupCtx },
           { vars := [], required_vars := [],
             statements := [LoweredStatement.MatchEnum
               { concrete_enum := 5, inputs := [], arms := [⟨20, 0, []⟩],
                 outputs := [] }] }) := by
  simp [lower_expr_match, lower_match_arms, lower_expr, extract_concrete_enum,
        collect_concrete_variants, build_arm_mapping, hm_contains_key, hm_insert,
        hs_extend, hs_insert, introduce_new_var, exCtx0, exDb, exLookupCtx,
        exArmsMissingVar, SemMatchArms.length, List.lookup]

/-- C3: the claim says `lower_free_function` returns nothing (an empty
result) when a match expression's arm count disagrees with its enum's
variant count.  Evaluating the code at the failing input (a body matching
the two-variant enum with a single arm, all upstream queries succeeding):
the function panics — `extract_concrete_enum`'s
`assert_eq!(expr.arms.len(), concrete_variants.len())` aborts and the
`.unwrap()` at the call site cannot turn failure into `None` (the source
marks this with `TODO(yg): change unwrap to ? and result`) — instead of
returning an empty result. -/
theorem c3_arm_count_mismatch_panics_instead_of_returning_nothing :
    lower_free_function (exDb [0, 1] exBodyMismatch) (fun l => l) = .panicked := by
  simp [lower_free_function, lower_block, lower_expr, lower_expr_match,
        extract_concrete_enum, collect_concrete_variants, SemMatchArms.length,
        exDb, exBodyMismatch]

/-- C3 auxiliary fact (the part of the claim the code honours): when any of
the four upstream queries fails, `lower_free_function` returns the empty
result. -/
theorem c3_upstream_query_failure_returns_nothing (db : Db)
    (ord : List Nat → List Nat)
    (h : db.free_function_definition = none ∨
         db.free_function_declaration_generic_params = none ∨
         db.free_function_declaration_signature = none ∨
         db.free_function_all_implicits_vec = none) :
    lower_free_function db ord = .ok none := by
  rw [lower_free_function]
  rcases h with h | h | h | h
  · rw [h]
  · cases hd : db.free_function_definition with
    | none => rfl
    | some fd => rw [h]
  · cases hd : db.free_function_definition with
    | none => rfl
    | some fd =>
      cases hg : db.free_function_declaration_generic_params with
      | none => rfl
      | some gp => rw [h]
  · cases hd : db.free_function_definition with
    | none => rfl
    | some fd =>
      cases hg : db.free_function_declaration_generic_params with
      | none => rfl
      | some gp =>
        cases hs : db.free_function_declaration_signature with
        | none => rfl
        | some sg => rw [h]

/-- Witness for the C3 auxiliary fact at a concrete database with a failing
definition query. -/
theorem c3_upstream_query_failure_returns_nothing_witness :
    ({ exDb [] .Missing with free_function_definition := none } : Db).free_function_definition
        = none ∧
    lower_free_function { exDb [] .Missing with free_function_definition := none }
        (fun l => l) = .ok none :=
  ⟨rfl, c3_upstream_query_failure_returns_nothing _ _ (Or.inl rfl)⟩

/-- C8: the claim says that after a let-binding is lowered, the produced IR
variable is bound to the declared name, so a later reference resolves to it.
Evaluating the code at the failing input `let x = 5; x` (the declared name is
semantic variable `7`): the literal's variable `0` is never bound to the
name — `lower_block`'s `Let` case only lowers the right-hand side and the
name-binding step does not exist (`get_pattern_vars` is a `TODO` stub) — so
the subsequent reference allocates the fresh placeholder `1` and becomes a
*required* (externally supplied) variable instead of resolving to `0`. -/
theorem c8_let_binding_never_binds_the_name :
    lower_block (exDb [] .Missing) (fun l => l) exCtx0 {} exStmtsLetThenUse =
      .ok ({ diagnostics := [],
             variables_arena := [⟨true, true, 7⟩, ⟨true, true, 7⟩], blocks := [],
             lookup_context := exLookupCtx },
           { vars := [(7, 1)], required_vars := [(7, 1)],
             statements := [LoweredStatement.Literal { value := 5, output := 0 }] }) := by
  simp [lower_block, lower_expr, lower_expr_literal, hm_contains_key, hm_insert,
        introduce_new_var, exCtx0, exDb, exLookupCtx, exStmtsLetThenUse, List.lookup]

/-- C4: the claim says the order of a `MatchEnum` statement's `inputs` and
`outputs` vectors is deterministic across runs.  The vectors are produced by
iterating `HashSet`s whose iteration order is not determined by the program
(it depends on the run's hasher seed; the source marks this with
`TODO(yg): make sure the order is consistent between different runs`).  Under
two legitimate iteration orders (insertion order and reversed insertion
order, both satisfying `IterOrder`), the same match over the same input
yields `inputs = [0, 1], outputs = [2, 3]` versus
`inputs = [1, 0], outputs = [3, 2]`: the program text does not determine the
vectors. -/
theorem c4_match_io_order_not_determined_by_program :
    IterOrder (fun l => l) ∧ IterOrder List.reverse ∧
    lower_expr_match (exDb [0] .Missing) (fun l => l) exCtx2 exScope2 100 exArmsTwoOuter =
      .ok ({ diagnostics := [],
             variables_arena := [⟨true, true, 7⟩, ⟨true, true, 7⟩, ⟨true, true, 7⟩,
                                 ⟨true, true, 7⟩],
             blocks := [{ statements := [] }], lookup_context := exLookupCtx },
           { vars := [(1, 0), (2, 1)], required_vars := [],
             statements := [LoweredStatement.MatchEnum
               { concrete_enum := 5, inputs := [0, 1],
                 arms := [⟨20, 0, [(0, 2), (1, 3)]⟩], outputs := [2, 3] }] }) ∧
    lower_expr_match (exDb [0] .Missing) List.reverse exCtx2 exScope2 100 exArmsTwoOuter =
      .ok ({ diagnostics := [],
             variables_arena := [⟨true, true, 7⟩, ⟨true, true, 7⟩, ⟨true, true, 7⟩,
                                 ⟨true, true, 7⟩],
             blocks := [{ statements := [] }], lookup_context := exLookupCtx },
           { vars := [(1, 0), (2, 1)], required_vars := [],
             statements := [LoweredStatement.MatchEnum
               { concrete_enum := 5, inputs := [1, 0],
                 arms := [⟨20, 0, [(0, 2), (1, 3)]⟩], outputs := [3, 2] }] }) := by
  refine ⟨iterOrder_insertion, iterOrder_reverse, ?_, ?_⟩ <;>
    simp [lower_expr_match, lower_match_arms, lower_block, lower_expr,
          extract_concrete_enum, collect_concrete_variants, build_arm_mapping,
          hm_contains_key, hm_insert, hs_extend, hs_insert, introduce_new_var,
          exCtx2, exScope2, exDb, exLookupCtx, exArmsTwoOuter,
          SemMatchArms.length, List.lookup]

/-- The accumulating invariant of the arm loop: on success, the produced
arms extend the accumulator, the final `inputs`/`outputs` sets hold exactly
the incoming elements plus the keys/values of the new arms' mappings, and
freedom from duplicates is preserved. -/
theorem lower_match_arms_spec (db : Db) (ord : List Nat → List Nat)
    (ev : List (SemVarId × VariableId)) (arms : SemMatchArms) :
    ∀ (vs : List ConcreteVariant) (ctx : LoweringContext)
      (ins outs : List VariableId) (acc : List MatchArm)
      (ctx1 : LoweringContext) (mas : List MatchArm) (ins1 outs1 : List VariableId),
      lower_match_arms db ord ev ctx ins outs acc vs arms = .ok (ctx1, mas, ins1, outs1) →
      ∃ news : List MatchArm,
        mas = acc ++ news ∧
        (∀ x, x ∈ ins1 ↔ x ∈ ins ∨ ∃ ma ∈ news, x ∈ ma.var_mapping.map Prod.fst) ∧
        (∀ x, x ∈ outs1 ↔ x ∈ outs ∨ ∃ ma ∈ news, x ∈ ma.var_mapping.map Prod.snd) ∧
        (ins.Nodup → ins1.Nodup) ∧ (outs.Nodup → outs1.Nodup) := by
  cases arms with
  | nil =>
    intro vs ctx ins outs acc ctx1 mas ins1 outs1 h
    cases vs with
    | nil =>
      rw [lower_match_arms] at h
      simp only [PanicOr.ok.injEq, Prod.mk.injEq] at h
      obtain ⟨-, hmas, hins, houts⟩ := h
      subst hmas
      subst hins
      subst houts
      exact ⟨[], by simp, by simp, by simp, id, id⟩
    | cons v vrest =>
      rw [lower_match_arms] at h
      exact absurd h (by simp)
  | cons p e rest =>
    intro vs ctx ins outs acc ctx1 mas ins1 outs1 h
    cases vs with
    | nil =>
      rw [lower_match_arms] at h
      exact absurd h (by simp)
    | cons v vrest =>
      rw [lower_match_arms] at h
      split at h
      · exact absurd h (by simp)
      · rename_i ctxA armscope heq
        obtain ⟨news', hmas, hins, houts, hnodi, hnodo⟩ :=
          lower_match_arms_spec db ord ev rest vrest _ _ _ _ _ _ _ _ h
        refine ⟨{ variant := v, block_id := ctxA.blocks.length,
                  var_mapping := build_arm_mapping ev armscope.required_vars [] } :: news',
                by simpa using hmas, ?_, ?_, ?_, ?_⟩
        · intro x
          rw [hins x, mem_hs_extend]
          constructor
          · rintro ((hx | hx) | ⟨ma, hma, hx⟩)
            · exact Or.inl hx
            · exact Or.inr ⟨_, List.mem_cons_self _ _, hx⟩
            · exact Or.inr ⟨ma, List.mem_cons_of_mem _ hma, hx⟩
          · rintro (hx | ⟨ma, hma, hx⟩)
            · exact Or.inl (Or.inl hx)
            · rcases List.mem_cons.mp hma with rfl | hma
              · exact Or.inl (Or.inr hx)
              · exact Or.inr ⟨ma, hma, hx⟩
        · intro x
          rw [houts x, mem_hs_extend]
          constructor
          · rintro ((hx | hx) | ⟨ma, hma, hx⟩)
            · exact Or.inl hx
            · exact Or.inr ⟨_, List.mem_cons_self _ _, hx⟩
            · exact Or.inr ⟨ma, List.mem_cons_of_mem _ hma, hx⟩
          · rintro (hx | ⟨ma, hma, hx⟩)
            · exact Or.inl (Or.inl hx)
            · rcases List.mem_cons.mp hma with rfl | hma
              · exact Or.inl (Or.inr hx)
              · exact Or.inr ⟨ma, hma, hx⟩
        · exact fun hn => hnodi (nodup_hs_extend _ _ hn)
        · exact fun hn => hnodo (nodup_hs_extend _ _ hn)

/-- C1: for every match expression lowered by `lower_expr_match`, the
emitted `MatchEnum` statement's `inputs` equal — as a deduplicated set, not
positionally paired — the union over all arms of the keys of that arm's
`var_mapping`, and its `outputs` equal the union over all arms of the values
of the arms' `var_mapping`s.  Holds for every legitimate `HashSet` iteration
order. -/
theorem c1_match_inputs_outputs_are_mapping_unions
    (db : Db) (ord : List Nat → List Nat) (ctx ctx1 : LoweringContext)
    (scope scope1 : LoweringBlockScope) (matched_ty : TypeId) (arms : SemMatchArms)
    (hord : IterOrder ord)
    (h : lower_expr_match db ord ctx scope matched_ty arms = .ok (ctx1, scope1)) :
    ∃ s : StatementMatchEnum,
      scope1.statements = scope.statements ++ [LoweredStatement.MatchEnum s] ∧
      (∀ x, x ∈ s.inputs ↔ ∃ ma ∈ s.arms, x ∈ ma.var_mapping.map Prod.fst) ∧
      (∀ x, x ∈ s.outputs ↔ ∃ ma ∈ s.arms, x ∈ ma.var_mapping.map Prod.snd) ∧
      s.inputs.Nodup ∧ s.outputs.Nodup := by
  rw [lower_expr_match] at h
  split at h
  · exact absurd h (by simp)
  · exact absurd h (by simp)
  · rename_i ceid cvs heq
    split at h
    · exact absurd h (by simp)
    · rename_i ctxA mas ins outs harms
      simp only [PanicOr.ok.injEq, Prod.mk.injEq] at h
      obtain ⟨-, hscope⟩ := h
      subst hscope
      obtain ⟨news, hmas, hins, houts, hnodi, hnodo⟩ :=
        lower_match_arms_spec db ord scope.vars arms cvs ctx [] [] [] _ _ _ _ harms
      rw [List.nil_append] at hmas
      subst hmas
      have hinsd : ins.Nodup := hnodi List.nodup_nil
      have houtsd : outs.Nodup := hnodo List.nodup_nil
      obtain ⟨hordnodi, hordmemi⟩ := hord ins hinsd
      obtain ⟨hordnodo, hordmemo⟩ := hord outs houtsd
      refine ⟨_, rfl, ?_, ?_, hordnodi, hordnodo⟩
      · intro x
        rw [hordmemi x, hins x]
        simp
      · intro x
        rw [hordmemo x, houts x]
        simp

/-- Witness for C1: applying the theorem at a concrete two-variant match
whose arms reference disjoint outer variables, under insertion order. -/
theorem c1_match_inputs_outputs_are_mapping_unions_witness :
    ∃ ctx1 scope1,
      lower_expr_match (exDb [0, 1] .Missing) (fun l => l) exCtx2 exScope2 100
          exArmsDisjointOuter = .ok (ctx1, scope1) ∧
      ∃ s : StatementMatchEnum,
        scope1.statements = exScope2.statements ++ [LoweredStatement.MatchEnum s] ∧
        (∀ x, x ∈ s.inputs ↔ ∃ ma ∈ s.arms, x ∈ ma.var_mapping.map Prod.fst) ∧
        (∀ x, x ∈ s.outputs ↔ ∃ ma ∈ s.arms, x ∈ ma.var_mapping.map Prod.snd) ∧
        s.inputs.Nodup ∧ s.outputs.Nodup := by
  have h : lower_expr_match (exDb [0, 1] .Missing) (fun l => l) exCtx2 exScope2 100
      exArmsDisjointOuter =
      .ok ({ diagnostics := [],
             variables_arena := [⟨true, true, 7⟩, ⟨true, true, 7⟩, ⟨true, true, 7⟩,
                                 ⟨true, true, 7⟩],
             blocks := [{ statements := [] }, { statements := [] }],
             lookup_context := exLookupCtx },
           { vars := [(1, 0), (2, 1)], required_vars := [],
             statements := [LoweredStatement.MatchEnum
               { concrete_enum := 5, inputs := [0, 1],
                 arms := [⟨20, 0, [(0, 2)]⟩, ⟨21, 1, [(1, 3)]⟩],
                 outputs := [2, 3] }] }) := by
    simp [lower_expr_match, lower_match_arms, lower_expr, extract_concrete_enum,
          collect_concrete_variants, build_arm_mapping, hm_contains_key, hm_insert,
          hs_extend, hs_insert, introduce_new_var, exCtx2, exScope2, exDb, exLookupCtx,
          exArmsDisjointOuter, SemMatchArms.length, List.lookup]
  exact ⟨_, _, h,
    c1_match_inputs_outputs_are_mapping_unions _ _ _ _ _ _ 100 _ iterOrder_insertion h⟩

/-- Witness for C10: applying the theorem at a variable already bound in the
scope. -/
theorem c10_var_reference_frame_witness :
    ∃ ctx1 scope1,
      lower_expr (exDb [] .Missing) (fun l => l) exCtx2 exScope2 (.Var 1 7) =
        .ok (ctx1, scope1) ∧
      (scope1.statements = exScope2.statements ∧
       ((List.lookup 1 exScope2.vars).isSome → ctx1 = exCtx2 ∧ scope1 = exScope2)) := by
  have h : lower_expr (exDb [] .Missing) (fun l => l) exCtx2 exScope2 (.Var 1 7) =
      .ok (exCtx2, exScope2) := by
    simp [lower_expr, hm_contains_key, exScope2, List.lookup]
  exact ⟨_, _, h, c10_var_reference_frame _ _ _ _ _ _ 1 7 h⟩

/-- An entry of `hm_insert acc k v` either carries the inserted key or was
already in the map. -/
theorem mem_hm_insert_key (acc : List (Nat × Nat)) (k v : Nat) (kv : Nat × Nat)
    (h : kv ∈ hm_insert acc k v) :
    kv.1 = k ∨ kv ∈ acc := by
  unfold hm_insert at h
  split at h
  · obtain ⟨p, hp, hpe⟩ := List.mem_map.mp h
    by_cases hpk : p.1 = k
    · left
      rw [← hpe, if_pos hpk]
    · right
      rw [← hpe, if_neg hpk]
      exact hp
  · rcases List.mem_append.mp h with h | h
    · right
      exact h
    · left
      rw [List.mem_singleton.mp h]

/-- Every key of `build_arm_mapping ev req acc` not inherited from `acc` is a
value stored in the enclosing scope's `vars` (`ev`): requirements are
resolved against the enclosing scope only. -/
theorem build_arm_mapping_keys_from_enclosing
    (ev : List (SemVarId × VariableId)) (req : List (SemVarId × VariableId)) :
    ∀ (acc : List (VariableId × VariableId)),
      (∀ kv ∈ acc, ∃ sem, List.lookup sem ev = some kv.1) →
      ∀ kv ∈ build_arm_mapping ev req acc, ∃ sem, List.lookup sem ev = some kv.1 := by
  induction req with
  | nil =>
    intro acc hacc kv hkv
    rw [build_arm_mapping] at hkv
    exact hacc kv hkv
  | cons rp rest ih =>
    intro acc hacc kv hkv
    obtain ⟨required_var, initial_id⟩ := rp
    rw [build_arm_mapping] at hkv
    revert hkv
    cases hl : List.lookup required_var ev with
    | none =>
      intro hkv
      exact ih acc hacc kv hkv
    | some sid =>
      intro hkv
      refine ih _ ?_ kv hkv
      intro kv' hkv'
      rcases mem_hm_insert_key _ _ _ _ hkv' with hk | hk
      · exact ⟨required_var, by rw [hl, hk]⟩
      · exact hacc kv' hk

/-- Positional description of the arm loop: each produced arm's block and
mapping come from lowering that arm's own body expression into the empty
scope (from some intermediate context), and its `var_mapping` is exactly the
resolution of that lowering's required variables against the (fixed)
enclosing `vars`. -/
theorem lower_match_arms_isolated (db : Db) (ord : List Nat → List Nat)
    (ev : List (SemVarId × VariableId)) (arms : SemMatchArms) :
    ∀ (vs : List ConcreteVariant) (ctx : LoweringContext)
      (ins outs : List VariableId) (acc : List MatchArm)
      (ctx1 : LoweringContext) (mas : List MatchArm) (ins1 outs1 : List VariableId),
      lower_match_arms db ord ev ctx ins outs acc vs arms = .ok (ctx1, mas, ins1, outs1) →
      ∃ news : List MatchArm,
        mas = acc ++ news ∧
        news.length = arms.toList.length ∧
        ∀ i, i < news.length →
          ∃ cmid cafter armscope,
            lower_expr db ord cmid {} (arms.toList.getD i (0, .Missing)).2 =
              .ok (cafter, armscope) ∧
            (news.getD i dummy_arm).var_mapping =
              build_arm_mapping ev armscope.required_vars [] := by
  cases arms with
  | nil =>
    intro vs ctx ins outs acc ctx1 mas ins1 outs1 h
    cases vs with
    | nil =>
      rw [lower_match_arms] at h
      simp only [PanicOr.ok.injEq, Prod.mk.injEq] at h
      obtain ⟨-, hmas, -, -⟩ := h
      subst hmas
      exact ⟨[], by simp, by simp [SemMatchArms.toList], by simp⟩
    | cons v vrest =>
      rw [lower_match_arms] at h
      exact absurd h (by simp)
  | cons p e rest =>
    intro vs ctx ins outs acc ctx1 mas ins1 outs1 h
    cases vs with
    | nil =>
      rw [lower_match_arms] at h
      exact absurd h (by simp)
    | cons v vrest =>
      rw [lower_match_arms] at h
      split at h
      · exact absurd h (by simp)
      · rename_i ctxA armscope heq
        obtain ⟨news', hmas, hlen, hpos⟩ :=
          lower_match_arms_isolated db ord ev rest vrest _ _ _ _ _ _ _ _ h
        refine ⟨{ variant := v, block_id := ctxA.blocks.length,
                  var_mapping := build_arm_mapping ev armscope.required_vars [] } :: news',
                by simpa using hmas,
                by simp [SemMatchArms.toList, hlen],
                ?_⟩
        intro i hi
        cases i with
        | zero =>
          exact ⟨ctx, ctxA, armscope, by simpa [SemMatchArms.toList] using heq, rfl⟩
        | succ j =>
          obtain ⟨cmid, cafter, ascope, h1, h2⟩ :=
            hpos j (by simpa using hi)
          exact ⟨cmid, cafter, ascope, by simpa [SemMatchArms.toList] using h1,
                 by simpa using h2⟩

/-- C6: every match arm is lowered into a fresh, empty `BlockScope`: each
produced arm's block and `var_mapping` arise from lowering that arm's own
body expression starting from the empty scope (so no binding made while
lowering a different arm is visible in it), and every key of every arm's
`var_mapping` is a value of the *enclosing* scope's `vars` (so a requirement
of one arm is never satisfied by a binding another arm introduced — those
live only in the sibling's own discarded scope). -/
theorem c6_arms_lowered_in_fresh_empty_scopes
    (db : Db) (ord : List Nat → List Nat) (ctx ctx1 : LoweringContext)
    (scope scope1 : LoweringBlockScope) (matched_ty : TypeId) (arms : SemMatchArms)
    (h : lower_expr_match db ord ctx scope matched_ty arms = .ok (ctx1, scope1)) :
    ∃ s : StatementMatchEnum,
      scope1.statements = scope.statements ++ [LoweredStatement.MatchEnum s] ∧
      s.arms.length = arms.toList.length ∧
      (∀ i, i < s.arms.length →
        ∃ cmid cafter armscope,
          lower_expr db ord cmid {} (arms.toList.getD i (0, .Missing)).2 =
            .ok (cafter, armscope) ∧
          (s.arms.getD i dummy_arm).var_mapping =
            build_arm_mapping scope.vars armscope.required_vars []) ∧
      ∀ ma ∈ s.arms, ∀ kv ∈ ma.var_mapping,
        ∃ sem, List.lookup sem scope.vars = some kv.1 := by
  rw [lower_expr_match] at h
  split at h
  · exact absurd h (by simp)
  · exact absurd h (by simp)
  · rename_i ceid cvs heq
    split at h
    · exact absurd h (by simp)
    · rename_i ctxA mas ins outs harms
      simp only [PanicOr.ok.injEq, Prod.mk.injEq] at h
      obtain ⟨-, hscope⟩ := h
      subst hscope
      obtain ⟨news, hmas, hlen, hpos⟩ :=
        lower_match_arms_isolated db ord scope.vars arms cvs ctx [] [] [] _ _ _ _ harms
      rw [List.nil_append] at hmas
      subst hmas
      refine ⟨_, rfl, hlen, hpos, ?_⟩
      intro ma hma kv hkv
      have hidx : ∃ i, i < mas.length ∧ mas.getD i dummy_arm = ma := by
        obtain ⟨n, hget⟩ := List.mem_iff_get.mp hma
        refine ⟨n.1, n.2, ?_⟩
        rw [List.getD_eq_getElem?_getD, List.getElem?_eq_getElem n.2]
        simpa using hget
      obtain ⟨i, hi, hget⟩ := hidx
      obtain ⟨cmid, cafter, ascope, -, hmap⟩ := hpos i hi
      rw [hget] at hmap
      rw [hmap] at hkv
      exact build_arm_mapping_keys_from_enclosing _ _ [] (by simp) kv hkv

/-- Witness for C6: applying the theorem at the concrete two-arm match whose
arms reference disjoint outer variables. -/
theorem c6_arms_lowered_in_fresh_empty_scopes_witness :
    ∃ ctx1 scope1,
      lower_expr_match (exDb [0, 1] .Missing) (fun l => l) exCtx2 exScope2 100
          exArmsDisjointOuter = .ok (ctx1, scope1) ∧
      ∃ s : StatementMatchEnum,
        scope1.statements = exScope2.statements ++ [LoweredStatement.MatchEnum s] ∧
        s.arms.length = exArmsDisjointOuter.toList.length ∧
        (∀ i, i < s.arms.length →
          ∃ cmid cafter armscope,
            lower_expr (exDb [0, 1] .Missing) (fun l => l) cmid {}
                (exArmsDisjointOuter.toList.getD i (0, .Missing)).2 =
              .ok (cafter, armscope) ∧
            (s.arms.getD i dummy_arm).var_mapping =
              build_arm_mapping exScope2.vars armscope.required_vars []) ∧
        ∀ ma ∈ s.arms, ∀ kv ∈ ma.var_mapping,
          ∃ sem, List.lookup sem exScope2.vars = some kv.1 := by
  have h : lower_expr_match (exDb [0, 1] .Missing) (fun l => l) exCtx2 exScope2 100
      exArmsDisjointOuter =
      .ok ({ diagnostics := [],
             variables_arena := [⟨true, true, 7⟩, ⟨true, true, 7⟩, ⟨true, true, 7⟩,
                                 ⟨true, true, 7⟩],
             blocks := [{ statements := [] }, { statements := [] }],
             lookup_context := exLookupCtx },
           { vars := [(1, 0), (2, 1)], required_vars := [],
             statements := [LoweredStatement.MatchEnum
               { concrete_enum := 5, inputs := [0, 1],
                 arms := [⟨20, 0, [(0, 2)]⟩, ⟨21, 1, [(1, 3)]⟩],
                 outputs := [2, 3] }] }) := by
    simp [lower_expr_match, lower_match_arms, lower_expr, extract_concrete_enum,
          collect_concrete_variants, build_arm_mapping, hm_contains_key, hm_insert,
          hs_extend, hs_insert, introduce_new_var, exCtx2, exScope2, exDb, exLookupCtx,
          exArmsDisjointOuter, SemMatchArms.length, List.lookup]
  exact ⟨_, _, h,
    c6_arms_lowered_in_fresh_empty_scopes _ _ _ _ _ _ 100 _ h⟩

/-- Statement validity is monotone in the arena sizes. -/
theorem stmt_valid_mono {nv nb nv' nb' : Nat} {st : LoweredStatement}
    (h : StmtValid nv nb st) (h1 : nv ≤ nv') (h2 : nb ≤ nb') :
    StmtValid nv' nb' st :=
  ⟨fun x hx => lt_of_lt_of_le (h.1 x hx) h1, fun b hb => lt_of_lt_of_le (h.2 b hb) h2⟩

/-- Arm validity is monotone in the arena sizes. -/
theorem arm_valid_mono {nv nb nv' nb' : Nat} {ma : MatchArm}
    (h : ArmValid nv nb ma) (h1 : nv ≤ nv') (h2 : nb ≤ nb') :
    ArmValid nv' nb' ma :=
  ⟨fun kv hkv => ⟨lt_of_lt_of_le ((h.1 kv hkv).1) h1, lt_of_lt_of_le ((h.1 kv hkv).2) h1⟩,
   lt_of_lt_of_le h.2 h2⟩

/-- Scope validity is monotone in the arena sizes. -/
theorem scope_valid_mono {nv nb nv' nb' : Nat} {s : LoweringBlockScope}
    (h : ScopeValid nv nb s) (h1 : nv ≤ nv') (h2 : nb ≤ nb') :
    ScopeValid nv' nb' s :=
  ⟨fun kv hkv => lt_of_lt_of_le (h.1 kv hkv) h1,
   fun kv hkv => lt_of_lt_of_le (h.2.1 kv hkv) h1,
   fun st hst => stmt_valid_mono (h.2.2 st hst) h1 h2⟩

/-- An entry of `hm_insert m k v` is either the inserted pair or an entry of
`m`. -/
theorem mem_hm_insert_elim (m : List (Nat × Nat)) (k v : Nat) (kv : Nat × Nat)
    (h : kv ∈ hm_insert m k v) :
    kv = (k, v) ∨ kv ∈ m := by
  unfold hm_insert at h
  split at h
  · obtain ⟨p, hp, hpe⟩ := List.mem_map.mp h
    by_cases hpk : p.1 = k
    · left
      rw [← hpe, if_pos hpk]
    · right
      rw [← hpe, if_neg hpk]
      exact hp
  · rcases List.mem_append.mp h with h | h
    · right
      exact h
    · left
      exact List.mem_singleton.mp h

/-- A successful association-list lookup returns a stored pair. -/
theorem lookup_mem (m : List (Nat × Nat)) (k x : Nat)
    (h : List.lookup k m = some x) : (k, x) ∈ m := by
  induction m with
  | nil => simp [List.lookup] at h
  | cons p t ih =>
    obtain ⟨a, b⟩ := p
    rw [List.lookup] at h
    cases hk : (k == a) with
    | true =>
      rw [hk] at h
      simp only [Option.some.injEq] at h
      subst h
      have hka : k = a := by simpa using hk
      subst hka
      exact List.mem_cons_self _ _
    | false =>
      rw [hk] at h
      exact List.mem_cons_of_mem _ (ih h)

/-- An entry of `build_arm_mapping ev req acc` is either inherited from
`acc` or pairs a value looked up in `ev` (its key) with the placeholder id of
some required variable (its value). -/
theorem build_arm_mapping_mem (ev : List (SemVarId × VariableId))
    (req : List (SemVarId × VariableId)) :
    ∀ (acc : List (VariableId × VariableId)) (kv : VariableId × VariableId),
      kv ∈ build_arm_mapping ev req acc →
      kv ∈ acc ∨ ∃ sem, (sem, kv.2) ∈ req ∧ List.lookup sem ev = some kv.1 := by
  induction req with
  | nil =>
    intro acc kv h
    rw [build_arm_mapping] at h
    exact Or.inl h
  | cons rp rest ih =>
    intro acc kv h
    obtain ⟨required_var, initial_id⟩ := rp
    rw [build_arm_mapping] at h
    revert h
    cases hl : List.lookup required_var ev with
    | none =>
      intro h
      rcases ih acc kv h with h | ⟨sem, hs, hlook⟩
      · exact Or.inl h
      · exact Or.inr ⟨sem, List.mem_cons_of_mem _ hs, hlook⟩
    | some sid =>
      intro h
      rcases ih _ kv h with h | ⟨sem, hs, hlook⟩
      · rcases mem_hm_insert_elim _ _ _ _ h with h | h
        · subst h
          exact Or.inr ⟨required_var, List.mem_cons_self _ _, hl⟩
        · exact Or.inl h
      · exact Or.inr ⟨sem, List.mem_cons_of_mem _ hs, hlook⟩

/-- Block validity is monotone in the arena sizes. -/
theorem block_valid_mono {nv nb nv' nb' : Nat} {b : Block}
    (h : BlockValid nv nb b) (h1 : nv ≤ nv') (h2 : nb ≤ nb') :
    BlockValid nv' nb' b :=
  fun st hst => stmt_valid_mono (h st hst) h1 h2

/-- The empty scope is valid for any arena sizes. -/
theorem scope_valid_empty (nv nb : Nat) :
    ScopeValid nv nb ({} : LoweringBlockScope) :=
  ⟨fun kv h => absurd h (List.not_mem_nil kv),
   fun kv h => absurd h (List.not_mem_nil kv),
   fun st h => absurd h (List.not_mem_nil st)⟩

mutual

/-- Closure invariant for `lower_expr`: arenas only grow, previously
allocated blocks stay valid, and the scope stays valid for the grown
arenas. -/
theorem lower_expr_closure (db : Db) (ord : List Nat → List Nat)
    (hord : IterOrder ord) (e : SemExpr) :
    ∀ (ctx : LoweringContext) (scope : LoweringBlockScope)
      (ctx1 : LoweringContext) (scope1 : LoweringBlockScope),
      lower_expr db ord ctx scope e = .ok (ctx1, scope1) →
      CtxValid ctx →
      ScopeValid ctx.variables_arena.length ctx.blocks.length scope →
      ctx.variables_arena.length ≤ ctx1.variables_arena.length ∧
      ctx.blocks.length ≤ ctx1.blocks.length ∧
      CtxValid ctx1 ∧
      ScopeValid ctx1.variables_arena.length ctx1.blocks.length scope1 := by
  cases e with
  | Var v ty =>
    intro ctx scope ctx1 scope1 h hc hs
    rw [lower_expr] at h
    by_cases hcont : hm_contains_key scope.vars v = true
    · rw [if_pos hcont] at h
      simp only [PanicOr.ok.injEq, Prod.mk.injEq] at h
      obtain ⟨h1, h2⟩ := h
      subst h1
      subst h2
      exact ⟨le_refl _, le_refl _, hc, hs⟩
    · rw [if_neg hcont] at h
      simp only [introduce_new_var, PanicOr.ok.injEq, Prod.mk.injEq] at h
      obtain ⟨h1, h2⟩ := h
      subst h1
      subst h2
      refine ⟨by simp, by simp, ?_, ?_, ?_, ?_⟩
      · intro b hb
        simp only [List.length_append, List.length_cons, List.length_nil] at *
        exact block_valid_mono (hc b hb) (by omega) (le_refl _)
      · intro kv hkv
        rcases mem_hm_insert_elim _ _ _ _ hkv with h | h
        · subst h
          simp
        · exact lt_of_lt_of_le (hs.1 kv h)
            (by simp)
      · intro kv hkv
        rcases mem_hm_insert_elim _ _ _ _ hkv with h | h
        · subst h
          simp
        · exact lt_of_lt_of_le (hs.2.1 kv h)
            (by simp)
      · intro st hst
        refine stmt_valid_mono (hs.2.2 st hst) (by simp) (le_refl _)
  | Literal value ty =>
    intro ctx scope ctx1 scope1 h hc hs
    rw [lower_expr] at h
    simp only [lower_expr_literal, introduce_new_var, PanicOr.ok.injEq,
               Prod.mk.injEq] at h
    obtain ⟨h1, h2⟩ := h
    subst h1
    subst h2
    refine ⟨by simp, by simp, ?_, ?_, ?_, ?_⟩
    · intro b hb
      simp only [List.length_append, List.length_cons, List.length_nil] at *
      exact block_valid_mono (hc b hb) (by omega) (le_refl _)
    · intro kv hkv
      exact lt_of_lt_of_le (hs.1 kv hkv)
        (by simp)
    · intro kv hkv
      exact lt_of_lt_of_le (hs.2.1 kv hkv)
        (by simp)
    · intro st hst
      rcases List.mem_append.mp hst with h | h
      · exact stmt_valid_mono (hs.2.2 st h) (by simp) (le_refl _)
      · rw [List.mem_singleton.mp h]
        refine ⟨?_, ?_⟩
        · intro x hx
          simp only [stmt_var_ids, List.mem_singleton] at hx
          subst hx
          simp
        · intro b hb
          simp [stmt_block_ids] at hb
  | Match matched_ty arms =>
    intro ctx scope ctx1 scope1 h hc hs
    rw [lower_expr] at h
    exact lower_expr_match_closure db ord hord matched_ty arms ctx scope ctx1 scope1 h hc hs
  | Block body =>
    intro ctx scope ctx1 scope1 h hc hs
    rw [lower_expr] at h
    exact lower_block_closure db ord hord body ctx scope ctx1 scope1 h hc hs
  | Tuple =>
    intro ctx scope ctx1 scope1 h hc hs
    rw [lower_expr] at h
    simp only [PanicOr.ok.injEq, Prod.mk.injEq] at h
    obtain ⟨h1, h2⟩ := h
    subst h1
    subst h2
    exact ⟨le_refl _, le_refl _, hc, hs⟩
  | Assignment =>
    intro ctx scope ctx1 scope1 h hc hs
    rw [lower_expr] at h
    simp only [PanicOr.ok.injEq, Prod.mk.injEq] at h
    obtain ⟨h1, h2⟩ := h
    subst h1
    subst h2
    exact ⟨le_refl _, le_refl _, hc, hs⟩
  | FunctionCall =>
    intro ctx scope ctx1 scope1 h hc hs
    rw [lower_expr] at h
    simp only [PanicOr.ok.injEq, Prod.mk.injEq] at h
    obtain ⟨h1, h2⟩ := h
    subst h1
    subst h2
    exact ⟨le_refl _, le_refl _, hc, hs⟩
  | If =>
    intro ctx scope ctx1 scope1 h hc hs
    rw [lower_expr] at h
    simp only [PanicOr.ok.injEq, Prod.mk.injEq] at h
    obtain ⟨h1, h2⟩ := h
    subst h1
    subst h2
    exact ⟨le_refl _, le_refl _, hc, hs⟩
  | MemberAccess =>
    intro ctx scope ctx1 scope1 h hc hs
    rw [lower_expr] at h
    simp only [PanicOr.ok.injEq, Prod.mk.injEq] at h
    obtain ⟨h1, h2⟩ := h
    subst h1
    subst h2
    exact ⟨le_refl _, le_refl _, hc, hs⟩
  | StructCtor =>
    intro ctx scope ctx1 scope1 h hc hs
    rw [lower_expr] at h
    simp only [PanicOr.ok.injEq, Prod.mk.injEq] at h
    obtain ⟨h1, h2⟩ := h
    subst h1
    subst h2
    exact ⟨le_refl _, le_refl _, hc, hs⟩
  | EnumVariantCtor =>
    intro ctx scope ctx1 scope1 h hc hs
    rw [lower_expr] at h
    simp only [PanicOr.ok.injEq, Prod.mk.injEq] at h
    obtain ⟨h1, h2⟩ := h
    subst h1
    subst h2
    exact ⟨le_refl _, le_refl _, hc, hs⟩
  | PropagateError =>
    intro ctx scope ctx1 scope1 h hc hs
    rw [lower_expr] at h
    simp only [PanicOr.ok.injEq, Prod.mk.injEq] at h
    obtain ⟨h1, h2⟩ := h
    subst h1
    subst h2
    exact ⟨le_refl _, le_refl _, hc, hs⟩
  | Missing =>
    intro ctx scope ctx1 scope1 h hc hs
    rw [lower_expr] at h
    simp only [PanicOr.ok.injEq, Prod.mk.injEq] at h
    obtain ⟨h1, h2⟩ := h
    subst h1
    subst h2
    exact ⟨le_refl _, le_refl _, hc, hs⟩
termination_by (sizeOf e, 0)

/-- Closure invariant for `lower_block` (statement sequencing). -/
theorem lower_block_closure (db : Db) (ord : List Nat → List Nat)
    (hord : IterOrder ord) (stmts : SemStmts) :
    ∀ (ctx : LoweringContext) (scope : LoweringBlockScope)
      (ctx1 : LoweringContext) (scope1 : LoweringBlockScope),
      lower_block db ord ctx scope stmts = .ok (ctx1, scope1) →
      CtxValid ctx →
      ScopeValid ctx.variables_arena.length ctx.blocks.length scope →
      ctx.variables_arena.length ≤ ctx1.variables_arena.length ∧
      ctx.blocks.length ≤ ctx1.blocks.length ∧
      CtxValid ctx1 ∧
      ScopeValid ctx1.variables_arena.length ctx1.blocks.length scope1 := by
  cases stmts with
  | nil =>
    intro ctx scope ctx1 scope1 h hc hs
    rw [lower_block] at h
    simp only [PanicOr.ok.injEq, Prod.mk.injEq] at h
    obtain ⟨h1, h2⟩ := h
    subst h1
    subst h2
    exact ⟨le_refl _, le_refl _, hc, hs⟩
  | consExpr e rest =>
    intro ctx scope ctx1 scope1 h hc hs
    rw [lower_block] at h
    split at h
    · exact absurd h (by simp)
    · rename_i ctxA scopeA heq
      obtain ⟨le1, le2, hcA, hsA⟩ :=
        lower_expr_closure db ord hord e ctx scope ctxA scopeA heq hc hs
      obtain ⟨le1', le2', hc1, hs1⟩ :=
        lower_block_closure db ord hord rest ctxA scopeA ctx1 scope1 h hcA hsA
      exact ⟨le_trans le1 le1', le_trans le2 le2', hc1, hs1⟩
  | consLet p e rest =>
    intro ctx scope ctx1 scope1 h hc hs
    rw [lower_block] at h
    split at h
    · exact absurd h (by simp)
    · rename_i ctxA scopeA heq
      obtain ⟨le1, le2, hcA, hsA⟩ :=
        lower_expr_closure db ord hord e ctx scope ctxA scopeA heq hc hs
      obtain ⟨le1', le2', hc1, hs1⟩ :=
        lower_block_closure db ord hord rest ctxA scopeA ctx1 scope1 h hcA hsA
      exact ⟨le_trans le1 le1', le_trans le2 le2', hc1, hs1⟩
  | consReturn rest =>
    intro ctx scope ctx1 scope1 h hc hs
    rw [lower_block] at h
    exact lower_block_closure db ord hord rest ctx scope ctx1 scope1 h hc hs
termination_by (sizeOf stmts, 0)

/-- Closure invariant for `lower_expr_match`: the emitted `MatchEnum`
statement references only ids resolving in the grown arenas. -/
theorem lower_expr_match_closure (db : Db) (ord : List Nat → List Nat)
    (hord : IterOrder ord) (matched_ty : TypeId) (arms : SemMatchArms) :
    ∀ (ctx : LoweringContext) (scope : LoweringBlockScope)
      (ctx1 : LoweringContext) (scope1 : LoweringBlockScope),
      lower_expr_match db ord ctx scope matched_ty arms = .ok (ctx1, scope1) →
      CtxValid ctx →
      ScopeValid ctx.variables_arena.length ctx.blocks.length scope →
      ctx.variables_arena.length ≤ ctx1.variables_arena.length ∧
      ctx.blocks.length ≤ ctx1.blocks.length ∧
      CtxValid ctx1 ∧
      ScopeValid ctx1.variables_arena.length ctx1.blocks.length scope1 := by
  intro ctx scope ctx1 scope1 h hc hs
  rw [lower_expr_match] at h
  split at h
  · exact absurd h (by simp)
  · exact absurd h (by simp)
  · rename_i ceid cvs heq
    split at h
    · exact absurd h (by simp)
    · rename_i ctxA mas ins outs harms
      simp only [PanicOr.ok.injEq, Prod.mk.injEq] at h
      obtain ⟨h1, h2⟩ := h
      subst h1
      subst h2
      obtain ⟨le1, le2, hcA, hvalid⟩ :=
        lower_match_arms_closure db ord hord scope.vars arms cvs ctx [] [] [] _ _ _ _
          harms hc hs.1 (fun ma hma => absurd hma (List.not_mem_nil ma))
      obtain ⟨news, hmas, hins, houts, hnodi, hnodo⟩ :=
        lower_match_arms_spec db ord scope.vars arms cvs ctx [] [] [] _ _ _ _ harms
      rw [List.nil_append] at hmas
      subst hmas
      have hinsd : ins.Nodup := hnodi List.nodup_nil
      have houtsd : outs.Nodup := hnodo List.nodup_nil
      have hinmem : ∀ x ∈ ins, x < ctxA.variables_arena.length := by
        intro x hx
        rcases (hins x).mp hx with hx | ⟨ma, hma, hx⟩
        · exact absurd hx (List.not_mem_nil x)
        · obtain ⟨kv, hkv, hkx⟩ := List.mem_map.mp hx
          exact hkx ▸ ((hvalid ma hma).1 kv hkv).1
      have houtmem : ∀ x ∈ outs, x < ctxA.variables_arena.length := by
        intro x hx
        rcases (houts x).mp hx with hx | ⟨ma, hma, hx⟩
        · exact absurd hx (List.not_mem_nil x)
        · obtain ⟨kv, hkv, hkx⟩ := List.mem_map.mp hx
          exact hkx ▸ ((hvalid ma hma).1 kv hkv).2
      refine ⟨le1, le2, hcA, ?_, ?_, ?_⟩
      · intro kv hkv
        exact lt_of_lt_of_le (hs.1 kv hkv) le1
      · intro kv hkv
        exact lt_of_lt_of_le (hs.2.1 kv hkv) le1
      · intro st hst
        rcases List.mem_append.mp hst with hmem | hmem
        · exact stmt_valid_mono (hs.2.2 st hmem) le1 le2
        · rw [List.mem_singleton.mp hmem]
          refine ⟨?_, ?_⟩
          · intro x hx
            simp only [stmt_var_ids] at hx
            rcases List.mem_append.mp hx with hx | hx
            · rcases List.mem_append.mp hx with hx | hx
              · exact hinmem x (((hord ins hinsd).2 x).mp hx)
              · exact houtmem x (((hord outs houtsd).2 x).mp hx)
            · obtain ⟨ma, hma, hx⟩ := List.mem_flatMap.mp hx
              rcases List.mem_append.mp hx with hx | hx
              · obtain ⟨kv, hkv, hkx⟩ := List.mem_map.mp hx
                exact hkx ▸ ((hvalid ma hma).1 kv hkv).1
              · obtain ⟨kv, hkv, hkx⟩ := List.mem_map.mp hx
                exact hkx ▸ ((hvalid ma hma).1 kv hkv).2
          · intro b hb
            simp only [stmt_block_ids] at hb
            obtain ⟨ma, hma, hmb⟩ := List.mem_map.mp hb
            exact hmb ▸ (hvalid ma hma).2
termination_by (sizeOf arms, 2)

/-- Closure invariant for the arm loop: every produced arm's mapping ids and
block id resolve in the grown arenas. -/
theorem lower_match_arms_closure (db : Db) (ord : List Nat → List Nat)
    (hord : IterOrder ord) (ev : List (SemVarId × VariableId)) (arms : SemMatchArms) :
    ∀ (vs : List ConcreteVariant) (ctx : LoweringContext)
      (ins outs : List VariableId) (acc : List MatchArm)
      (ctx1 : LoweringContext) (mas : List MatchArm) (ins1 outs1 : List VariableId),
      lower_match_arms db ord ev ctx ins outs acc vs arms = .ok (ctx1, mas, ins1, outs1) →
      CtxValid ctx →
      (∀ kv ∈ ev, kv.2 < ctx.variables_arena.length) →
      (∀ ma ∈ acc, ArmValid ctx.variables_arena.length ctx.blocks.length ma) →
      ctx.variables_arena.length ≤ ctx1.variables_arena.length ∧
      ctx.blocks.length ≤ ctx1.blocks.length ∧
      CtxValid ctx1 ∧
      ∀ ma ∈ mas, ArmValid ctx1.variables_arena.length ctx1.blocks.length ma := by
  cases arms with
  | nil =>
    intro vs ctx ins outs acc ctx1 mas ins1 outs1 h hc hev hacc
    cases vs with
    | nil =>
      rw [lower_match_arms] at h
      simp only [PanicOr.ok.injEq, Prod.mk.injEq] at h
      obtain ⟨h1, h2, h3, h4⟩ := h
      subst h1
      subst h2
      exact ⟨le_refl _, le_refl _, hc, hacc⟩
    | cons v vrest =>
      rw [lower_match_arms] at h
      exact absurd h (by simp)
  | cons p e rest =>
    intro vs ctx ins outs acc ctx1 mas ins1 outs1 h hc hev hacc
    cases vs with
    | nil =>
      rw [lower_match_arms] at h
      exact absurd h (by simp)
    | cons v vrest =>
      rw [lower_match_arms] at h
      split at h
      · exact absurd h (by simp)
      · rename_i ctxA armscope heq
        obtain ⟨le1, le2, hcA, hsA⟩ :=
          lower_expr_closure db ord hord e ctx {} ctxA armscope heq hc
            (scope_valid_empty _ _)
        have hmapvalid : ∀ kv ∈ build_arm_mapping ev armscope.required_vars [],
            kv.1 < ctxA.variables_arena.length ∧ kv.2 < ctxA.variables_arena.length := by
          intro kv hkv
          rcases build_arm_mapping_mem ev armscope.required_vars [] kv hkv with
            hkv | ⟨sem, hreq, hlook⟩
          · exact absurd hkv (List.not_mem_nil kv)
          · constructor
            · exact lt_of_lt_of_le (hev (sem, kv.1) (lookup_mem ev sem kv.1 hlook)) le1
            · exact hsA.2.1 (sem, kv.2) hreq
        have hc2 : CtxValid { ctxA with
            blocks := ctxA.blocks ++ [{ statements := armscope.statements }] } := by
          intro b hb
          rcases List.mem_append.mp hb with hb | hb
          · exact block_valid_mono (hcA b hb) (le_refl _) (by simp)
          · rw [List.mem_singleton.mp hb]
            intro st hst
            exact stmt_valid_mono (hsA.2.2 st hst) (le_refl _) (by simp)
        obtain ⟨le1', le2', hc1, hmas⟩ :=
          lower_match_arms_closure db ord hord ev rest vrest _ _ _ _ _ _ _ _ h hc2
            (by
              intro kv hkv
              simpa using lt_of_lt_of_le (hev kv hkv) le1)
            (by
              intro ma hma
              rcases List.mem_append.mp hma with hma | hma
              · refine arm_valid_mono (hacc ma hma) ?_ ?_
                · simpa using le1
                · simp only [List.length_append, List.length_cons, List.length_nil]
                  omega
              · rw [List.mem_singleton.mp hma]
                refine ⟨hmapvalid, ?_⟩
                simp)
        refine ⟨?_, ?_, hc1, hmas⟩
        · refine le_trans le1 (le_trans ?_ le1')
          simp
        · refine le_trans le2 (le_trans ?_ le2')
          simp
termination_by (sizeOf arms, 1)

end

/-- C7: arena closure.  For every function for which `lower_free_function`
returns a result, every `VariableId` and `BlockId` referenced by any
statement or match arm of the result resolves inside the returned variable
arena or block arena respectively, and the root `BlockId` resolves in the
block arena — no dangling indices.  Holds for every legitimate `HashSet`
iteration order. -/
theorem c7_arena_closure (db : Db) (ord : List Nat → List Nat)
    (f : LoweredFreeFunction) (hord : IterOrder ord)
    (h : lower_free_function db ord = .ok (some f)) :
    f.root < f.blocks.length ∧
    ∀ b ∈ f.blocks, BlockValid f.variables_arena.length f.blocks.length b := by
  rw [lower_free_function] at h
  split at h
  · exact absurd h (by simp)
  · rename_i fd hd
    split at h
    · exact absurd h (by simp)
    · rename_i gp hg
      split at h
      · exact absurd h (by simp)
      · rename_i sg hsg
        split at h
        · exact absurd h (by simp)
        · rename_i im him
          split at h
          · rename_i sb hb
            dsimp only at h
            split at h
            · exact absurd h (by simp)
            · rename_i ctx1 scope hblock
              simp only [PanicOr.ok.injEq, Option.some.injEq] at h
              subst h
              obtain ⟨le1, le2, hc1, hs1⟩ :=
                lower_block_closure db ord hord sb _ {} ctx1 scope hblock
                  (fun b hb => absurd hb (List.not_mem_nil b))
                  (scope_valid_empty _ _)
              refine ⟨by simp, ?_⟩
              intro b hbm
              rcases List.mem_append.mp hbm with hbm | hbm
              · refine block_valid_mono (hc1 b hbm) (le_refl _) (by simp)
              · rw [List.mem_singleton.mp hbm]
                intro st hst
                exact stmt_valid_mono (hs1.2.2 st hst) (le_refl _) (by simp)
          · exact absurd h (by simp)

/-- Witness for C7: applying the theorem at the concrete two-variant match
function `{A => 1, B => 2}`, under insertion order. -/
theorem c7_arena_closure_witness :
    ∃ f : LoweredFreeFunction,
      lower_free_function (exDb [0, 1] exBodyTwoLiterals) (fun l => l) = .ok (some f) ∧
      f.root < f.blocks.length ∧
      ∀ b ∈ f.blocks, BlockValid f.variables_arena.length f.blocks.length b := by
  have h : lower_free_function (exDb [0, 1] exBodyTwoLiterals) (fun l => l) =
      .ok (some
        { diagnostics := [],
          root := 2,
          variables_arena := [⟨true, true, 7⟩, ⟨true, true, 7⟩],
          blocks :=
            [{ statements := [LoweredStatement.Literal { value := 1, output := 0 }] },
             { statements := [LoweredStatement.Literal { value := 2, output := 1 }] },
             { statements := [LoweredStatement.MatchEnum
                 { concrete_enum := 5, inputs := [],
                   arms := [⟨20, 0, []⟩, ⟨21, 1, []⟩], outputs := [] }] }] }) := by
    simp [lower_free_function, lower_block, lower_expr, lower_expr_match,
          lower_match_arms, lower_expr_literal, extract_concrete_enum,
          collect_concrete_variants, build_arm_mapping, hm_contains_key, hm_insert,
          hs_extend, hs_insert, introduce_new_var, exDb, exBodyTwoLiterals,
          exArmsTwoLiterals, exLookupCtx, SemMatchArms.length, List.lookup]
  exact ⟨_, h, c7_arena_closure _ _ _ iterOrder_insertion h⟩
